import Mathlib

set_option maxRecDepth 1000000

/-!
Verification development for the exercise-name canonicalization and PR-parsing
core of the discord-bot repository (src/exercise_normalization.py and
src/fuzzy_matching.py).

The Python code is shallowly embedded: strings are lists of characters,
Python floats are modelled as exact rationals, regex substitutions over the
fixed literal rule tables are implemented by a small word-boundary
substitution engine, and fallible operations return Option.

Modelling notes, stated once here:
- character classes are modelled on the range the pipeline actually operates
  on (the normalizer lowercases its input and all rule tables are ASCII):
  regex word characters are ASCII alphanumerics plus underscore, lower/upper
  casing is ASCII, and digits are ASCII digits; Python whitespace (both for
  str.strip and for the regex class) is modelled by the standard whitespace
  code points;
- re.sub scans left to right, does not rescan replacement text, and computes
  word boundaries on the original characters; the engine below does the same;
- Python floats are modelled as exact rationals, so float("85") is 85 : Q and
  the Epley expression is exact rational arithmetic;
- fuzz.ratio from rapidfuzz is the normalized InDel similarity
  200 * lcs(a,b) / (len a + len b), with 100 for two empty strings.
-/

/-- Python whitespace (str.strip and the regex class \s), by code point. -/
def pyIsSpace (c : Char) : Bool :=
  c.toNat = 32 || c.toNat = 9 || c.toNat = 10 || c.toNat = 13 || c.toNat = 11 ||
  c.toNat = 12 || c.toNat = 28 || c.toNat = 29 || c.toNat = 30 || c.toNat = 31 ||
  c.toNat = 133 || c.toNat = 160 || c.toNat = 5760 ||
  (8192 ≤ c.toNat && c.toNat ≤ 8202) || c.toNat = 8232 || c.toNat = 8233 ||
  c.toNat = 8239 || c.toNat = 8287 || c.toNat = 12288

/-- ASCII decimal digit (the regex class [0-9] and \d on this ASCII pipeline). -/
def pyDigit (c : Char) : Bool :=
  '0' ≤ c && c ≤ '9'

/-- Regex word character \w (ASCII model: the rule tables are all ASCII). -/
def isWordChar (c : Char) : Bool :=
  c.isAlphanum || c = '_'

/-- str.lower, ASCII model. -/
def pyToLower (c : Char) : Char :=
  if 'A' ≤ c && c ≤ 'Z' then Char.ofNat (c.toNat + 32) else c

/-- str.upper, ASCII model. -/
def pyToUpper (c : Char) : Char :=
  if 'a' ≤ c && c ≤ 'z' then Char.ofNat (c.toNat - 32) else c

/-- str.strip with no arguments: remove whitespace from both ends. -/
def pyStrip (l : List Char) : List Char :=
  ((l.dropWhile pyIsSpace).reverse.dropWhile pyIsSpace).reverse

/-- Does the second list start with the first one (character-wise)? -/
def startsWithL : List Char → List Char → Bool
  | [], _ => true
  | _ :: _, [] => false
  | p :: ps, c :: cs => p = c && startsWithL ps cs

/-- Does the second list end with the first one? -/
def endsWithL (pat l : List Char) : Bool :=
  startsWithL pat.reverse l.reverse

/-- Python substring containment, the `pat in s` test on strings. -/
def hasSub (pat : List Char) : List Char → Bool
  | [] => pat.isEmpty
  | c :: cs => startsWithL pat (c :: cs) || hasSub pat cs

/-- Shorthand: the character list of a string literal. -/
def Lc (s : String) : List Char :=
  s.data

/-- One step of re.sub(r'\s+', ' ', s): runs of whitespace become one space.
The Bool records whether the previous character was inside a whitespace run. -/
def collapseWSAux : Bool → List Char → List Char
  | _, [] => []
  | inWS, c :: cs =>
    if pyIsSpace c then
      (if inWS then collapseWSAux true cs else ' ' :: collapseWSAux true cs)
    else c :: collapseWSAux false cs

/-- re.sub(r'\s+', ' ', s). -/
def collapseWS (l : List Char) : List Char :=
  collapseWSAux false l

/-- Helper for the parenthetical strip: drop everything up to and including the
first closing parenthesis, failing if there is none. -/
def dropThroughClose : List Char → Option (List Char)
  | [] => none
  | ')' :: r => some r
  | _ :: r => dropThroughClose r

/-- re.sub(r'\([^)]*\)', '', s): remove parenthetical asides.  An opening
parenthesis with no later closing one does not match and is kept. -/
def stripParensAux : Nat → List Char → List Char
  | 0, s => s
  | _ + 1, [] => []
  | f + 1, '(' :: cs =>
    (match dropThroughClose cs with
     | some rest => stripParensAux f rest
     | none => '(' :: stripParensAux f cs)
  | f + 1, c :: cs => c :: stripParensAux f cs

/-- re.sub(r'\([^)]*\)', '', s). -/
def stripParens (l : List Char) : List Char :=
  stripParensAux (l.length + 1) l

/-- One pattern character of a substitution rule: a literal, or the regex dot
(any character other than a newline). -/
inductive PC
  | lit (c : Char)
  | anyc
deriving DecidableEq

/-- Does a pattern character match a character? -/
def pcMatch : PC → Char → Bool
  | PC.lit a, c => a = c
  | PC.anyc, c => c ≠ '\n'

/-- A word-boundary substitution rule \bpat\b(?!look) → repl.  An empty look
means no negative lookahead.  Every pattern used below starts and ends with a
word character, so both boundaries require a non-word context. -/
structure Rule where
  pat : List PC
  repl : List Char
  look : List Char
deriving DecidableEq

/-- Plain literal rule \bp\b → r. -/
def mkR (p r : String) : Rule :=
  ⟨p.data.map PC.lit, r.data, []⟩

/-- Literal rule with a negative lookahead \bp\b(?!la) → r. -/
def mkRL (p r la : String) : Rule :=
  ⟨p.data.map PC.lit, r.data, la.data⟩

/-- Match the tail of a pattern, remembering the last original character
consumed; returns the rest of the input and that last character. -/
def matchPatGo : List PC → List Char → Char → Option (List Char × Char)
  | [], s, last => some (s, last)
  | _ :: _, [], _ => none
  | p :: ps, c :: cs, _ => if pcMatch p c then matchPatGo ps cs c else none

/-- Match a whole (nonempty) pattern at the head of the input. -/
def matchPat : List PC → List Char → Option (List Char × Char)
  | [], _ => none
  | _ :: _, [] => none
  | p :: ps, c :: cs => if pcMatch p c then matchPatGo ps cs c else none

/-- The trailing \b of a rule: the next original character, if any, must not be
a word character (every pattern ends in a word character). -/
def boundaryOkEnd : List Char → Bool
  | [] => true
  | c :: _ => !(isWordChar c)

/-- Negative lookahead check: the rest must not start with the literal. -/
def lookOk (la : List Char) (s : List Char) : Bool :=
  la.isEmpty || !(startsWithL la s)

/-- Try one rule at the current position.  pw says whether the previous
original character was a word character; since every pattern starts with a
word character, the leading \b requires pw to be false. -/
def tryRule (pw : Bool) (ru : Rule) (s : List Char) : Option (List Char × Char) :=
  if pw then none
  else
    match matchPat ru.pat s with
    | none => none
    | some (rest, lastC) =>
      if boundaryOkEnd rest && lookOk ru.look rest then some (rest, lastC) else none

/-- First rule of an alternation that matches at the current position
(regex alternation tries branches in order). -/
def firstRuleMatch : List Rule → Bool → List Char → Option (List Char × List Char × Char)
  | [], _, _ => none
  | ru :: rs, pw, s =>
    match tryRule pw ru s with
    | some (rest, lc) => some (ru.repl, rest, lc)
    | none => firstRuleMatch rs pw s

/-- The re.sub scan: left to right, emit replacements, continue after the
matched region, never rescan replacement text; boundaries are computed from
the original characters.  Fuel is the input length (each step consumes at
least one input character). -/
def subAux (alts : List Rule) : Nat → Bool → List Char → List Char
  | 0, _, s => s
  | _ + 1, _, [] => []
  | f + 1, pw, c :: cs =>
    match firstRuleMatch alts pw (c :: cs) with
    | some (repl, rest, lc) => repl ++ subAux alts f (isWordChar lc) rest
    | none => c :: subAux alts f (isWordChar c) cs

/-- re.sub for a word-boundary alternation of literal rules. -/
def subW (alts : List Rule) (s : List Char) : List Char :=
  subAux alts (s.length + 1) false s

/-- Python str.replace: plain substring replacement, left to right,
non-overlapping, no boundaries. -/
def strReplAux (pat rep : List Char) : Nat → List Char → List Char
  | 0, s => s
  | _ + 1, [] => []
  | f + 1, c :: cs =>
    if startsWithL pat (c :: cs) then rep ++ strReplAux pat rep f (List.drop pat.length (c :: cs))
    else c :: strReplAux pat rep f cs

/-- Python str.replace (with a nonempty pattern, as in all uses below). -/
def strRepl (pat rep s : List Char) : List Char :=
  strReplAux pat rep (s.length + 1) s

/-- re.search of a word-bounded literal phrase \bpat\b, starting from a given
previous-character-is-word-character context. -/
def hasWFrom (pat : List Char) : Bool → List Char → Bool
  | _, [] => false
  | pw, c :: cs =>
    (!pw && startsWithL pat (c :: cs) && boundaryOkEnd (List.drop pat.length (c :: cs))) ||
    hasWFrom pat (isWordChar c) cs

/-- re.search(r'\bpat\b', s) for a literal phrase. -/
def hasW (pat : List Char) (s : List Char) : Bool :=
  hasWFrom pat false s

/-- re.search over an alternation of word-bounded literal words. -/
def hasWAny (pats : List String) (s : List Char) : Bool :=
  pats.any (fun p => hasW p.data s)

/-- Is there a position with a word boundary before it where one of the tokens
starts (no boundary required after, matching \b(tok1|...) with no trailing \b)? -/
def hasTokStart (toks : List (List Char)) : Bool → List Char → Bool
  | _, [] => false
  | pw, c :: cs =>
    (!pw && toks.any (fun t => startsWithL t (c :: cs))) ||
    hasTokStart toks (isWordChar c) cs

/-- re.search(r'\boh\b.*\b(pulldown|pullup|row|curl)', s): a word "oh" followed
(after its own boundary, so two characters on) by a boundary-started token. -/
def searchOhTok (toks : List (List Char)) : Bool → List Char → Bool
  | _, [] => false
  | pw, c :: cs =>
    (!pw && startsWithL (Lc ("oh")) (c :: cs) && boundaryOkEnd (List.drop 2 (c :: cs)) &&
      hasTokStart toks true (List.drop 2 (c :: cs))) ||
    searchOhTok toks (isWordChar c) cs

/-- re.search(r'\b(pulldown|pullup|row|curl).*\boh\b', s): a boundary-started
token followed somewhere later by the word "oh".  After the token the previous
character is the token's last character, a word character. -/
def searchTokOh (toks : List (List Char)) : Bool → List Char → Bool
  | _, [] => false
  | pw, c :: cs =>
    (!pw && toks.any (fun t =>
        startsWithL t (c :: cs) && hasWFrom (Lc ("oh")) true (List.drop t.length (c :: cs)))) ||
    searchTokOh toks (isWordChar c) cs

/-- The four words that flip "oh" to mean overhand. -/
def ohTargets : List (List Char) :=
  [Lc ("pulldown"), Lc ("pullup"), Lc ("row"), Lc ("curl")]

/-- The context condition of the oh-disambiguation in the source. -/
def ohCond (e : List Char) : Bool :=
  searchOhTok ohTargets false e || searchTokOh ohTargets false e

/-- Does the suffix start like \s+\d+\s*second (the rest .*$ is arbitrary)? -/
def secTail (s : List Char) : Bool :=
  !(s.takeWhile pyIsSpace).isEmpty &&
  (let r := s.dropWhile pyIsSpace
   !(r.takeWhile pyDigit).isEmpty &&
   startsWithL (Lc ("second")) ((r.dropWhile pyDigit).dropWhile pyIsSpace))

/-- re.sub(r'\s+\d+\s*second.*$', '', s): truncate at the leftmost match. -/
def stripSecond : List Char → List Char
  | [] => []
  | c :: cs => if secTail (c :: cs) then [] else c :: stripSecond cs

/-- Does the whole suffix match \s+(each|per)\s+side exactly to the end? -/
def epTail (s : List Char) : Bool :=
  !(s.takeWhile pyIsSpace).isEmpty &&
  (let r := s.dropWhile pyIsSpace
   (startsWithL (Lc ("each")) r &&
     (let r2 := List.drop 4 r
      !(r2.takeWhile pyIsSpace).isEmpty && r2.dropWhile pyIsSpace = Lc ("side"))) ||
   (startsWithL (Lc ("per")) r &&
     (let r2 := List.drop 3 r
      !(r2.takeWhile pyIsSpace).isEmpty && r2.dropWhile pyIsSpace = Lc ("side"))))

/-- re.sub(r'\s+(each|per)\s+side$', '', s). -/
def stripEachPer : List Char → List Char
  | [] => []
  | c :: cs => if epTail (c :: cs) then [] else c :: stripEachPer cs

/-- Does the whole suffix match \s+x\d+ exactly to the end? -/
def xnTail (s : List Char) : Bool :=
  !(s.takeWhile pyIsSpace).isEmpty &&
  (match s.dropWhile pyIsSpace with
   | 'x' :: r => !r.isEmpty && r.all pyDigit
   | _ => false)

/-- re.sub(r'\s+x\d+$', '', s). -/
def stripXn : List Char → List Char
  | [] => []
  | c :: cs => if xnTail (c :: cs) then [] else c :: stripXn cs

/-- Match \b\d+<sep>\d+<sep>\d+\b at the head of the input (the leading \b is
checked by the caller); returns the rest after the match. -/
def tempoMatch (sep : Char) (s : List Char) : Option (List Char) :=
  if (s.takeWhile pyDigit).isEmpty then none
  else
    match s.dropWhile pyDigit with
    | c1 :: r1 =>
      if c1 = sep then
        if (r1.takeWhile pyDigit).isEmpty then none
        else
          match r1.dropWhile pyDigit with
          | c2 :: r2 =>
            if c2 = sep then
              if (r2.takeWhile pyDigit).isEmpty then none
              else
                (let rest := r2.dropWhile pyDigit
                 if boundaryOkEnd rest then some rest else none)
            else none
          | [] => none
      else none
    | [] => none

/-- The scan of re.sub(r'\b\d+<sep>\d+<sep>\d+\b', '', s). -/
def tempoAux (sep : Char) : Nat → Bool → List Char → List Char
  | 0, _, s => s
  | _ + 1, _, [] => []
  | f + 1, pw, c :: cs =>
    if pw then c :: tempoAux sep f (isWordChar c) cs
    else
      match tempoMatch sep (c :: cs) with
      | some rest => tempoAux sep f true rest
      | none => c :: tempoAux sep f (isWordChar c) cs

/-- re.sub(r'\b\d+<sep>\d+<sep>\d+\b', '', s). -/
def tempoSub (sep : Char) (s : List Char) : List Char :=
  tempoAux sep (s.length + 1) false s

/-- One foldr step of Python str.split() (split on whitespace runs). -/
def splitStep (c : Char) (acc : List (List Char)) : List (List Char) :=
  if pyIsSpace c then [] :: acc
  else
    match acc with
    | [] => [[c]]
    | w :: rest => (c :: w) :: rest

/-- Python str.split() with no argument: split on whitespace, drop empties. -/
def pySplitWS (s : List Char) : List (List Char) :=
  (s.foldr splitStep []).filter (fun w => !w.isEmpty)

/-- The duplicate-word collapse: drop a word equal to the previous word. -/
def dedupAux (p : List Char) : List (List Char) → List (List Char)
  | [] => []
  | w :: ws => if w = p then dedupAux p ws else w :: dedupAux w ws

/-- Remove immediately-repeated consecutive words (step 13 of the source). -/
def dedupWords : List (List Char) → List (List Char)
  | [] => []
  | w :: ws => w :: dedupAux w ws

/-- ' '.join. -/
def joinSp (ws : List (List Char)) : List Char :=
  List.intercalate (Lc (" ")) ws

/-- One DP row update for the longest common subsequence length.  diag walks
the previous row, cur is the entry just written in the new row. -/
def rowAux (a : Char) : Nat → List Char → List Nat → List Nat
  | _, [], _ => []
  | _, _ :: _, [] => []
  | cur, b :: bs, diag :: rest =>
    (let v := if a = b then diag + 1 else max cur (rest.headD 0)
     v :: rowAux a v bs rest)

/-- Longest common subsequence length of two character lists. -/
def lcsLen (as bs : List Char) : Nat :=
  (as.foldl (fun row a => 0 :: rowAux a 0 bs row) (List.replicate (bs.length + 1) 0)).getLastD 0

/-- rapidfuzz fuzz.ratio: normalized InDel similarity scaled to 0..100,
as an exact rational; two empty strings give 100. -/
def ratioL (a b : List Char) : ℚ :=
  if a.length + b.length = 0 then 100
  else (200 * lcsLen a b : ℚ) / (a.length + b.length : ℚ)

/-- fuzz.ratio on strings. -/
def ratioQ (a b : String) : ℚ :=
  ratioL a.data b.data

/-- Does the stripped text start with the coach-comment marker? -/
def startsStar : List Char → Bool
  | '*' :: _ => true
  | _ => false

/-- Section 1 of normalize_exercise_name: lowercase, strip, collapse
whitespace, drop periods and commas, strip parentheticals, hyphens to
spaces, collapse and strip again. -/
def normPre (e0 : List Char) : List Char :=
  let e := pyStrip (e0.map pyToLower)
  let e := collapseWS e
  let e := e.filter (fun c => c ≠ '.')
  let e := e.filter (fun c => c ≠ ',')
  let e := stripParens e
  let e := e.map (fun c => if c = '-' then ' ' else c)
  let e := pyStrip (collapseWS e)
  e

/-- Sections 1 through 11 of normalize_exercise_name up to (and excluding)
the weight-conditioned squat disambiguation, in source order. -/
def normStage1 (e0 : List Char) : List Char :=
  let e := normPre e0
  let e := subW [mkR ("weighte") ("weighted")] e
  let e := subW [mkR ("ex bar") ("ez bar")] e
  let e := subW [mkR ("dumbell") ("dumbbell")] e
  let e := subW [mkR ("barbel") ("barbell")] e
  let e := subW [mkR ("militery") ("military")] e
  let e := subW [mkR ("millitary") ("military")] e
  let e := subW [mkR ("romainian") ("romanian")] e
  let e := subW [mkR ("romaninan") ("romanian")] e
  let e := subW [mkR ("stragiht") ("straight")] e
  let e := subW [mkR ("skullcrushers") ("tricep extension"), mkR ("skullcrusher") ("tricep extension")] e
  let e := if startsWithL (Lc ("the ")) e then List.drop 4 e else e
  let e := subW [mkR ("db") ("dumbbell")] e
  let e := subW [mkR ("bb") ("barbell")] e
  let e := subW [mkR ("bw") ("bodyweight")] e
  let e := subW [mkR ("kb") ("kettlebell")] e
  let e := subW [mkR ("mb") ("medicine ball")] e
  let e := subW [mkR ("sl") ("single leg")] e
  let e := subW [mkR ("sa") ("single arm")] e
  let e := subW [mkR ("cs") ("chest supported")] e
  let e := subW [mkR ("hs") ("head supported")] e
  let e := subW [mkR ("dm") ("dumbbell")] e
  let e := if hasSub (Lc ("ez")) e && !(hasSub (Lc ("ez bar")) e) then subW [mkR ("ez") ("ez bar")] e else e
  let e := subW [mkR ("rdl") ("romanian deadlift")] e
  let e := subW [mkR ("dl") ("deadlift")] e
  let e := subW [mkR ("ohp") ("overhead press")] e
  let e := subW [mkR ("bp") ("bench press")] e
  let e := subW [mkR ("fs") ("front squat")] e
  let e := subW [mkR ("bs") ("back squat")] e
  let e := subW [mkR ("ghr") ("glute ham raise")] e
  let e := subW [mkR ("rdf") ("rear delt fly")] e
  let e := subW [mkR ("hspu") ("handstand pushup")] e
  let e := subW [mkR ("er") ("external rotation")] e
  let e := subW [mkR ("one arm") ("single arm")] e
  let e := subW [mkR ("1 arm") ("single arm")] e
  let e := subW [mkR ("one leg") ("single leg")] e
  let e := subW [mkR ("1 leg") ("single leg")] e
  let e := subW [mkR ("pronated") ("overhand")] e
  let e := subW [mkR ("supinated") ("underhand")] e
  let e := subW [mkR ("supine") ("lying")] e
  let e := if ohCond e then subW [mkR ("oh") ("overhand")] e else subW [mkR ("oh") ("overhead")] e
  let e := subW [mkR ("uh") ("underhand")] e
  let e := subW [mkR ("suspension trainer") ("trx")] e
  let e := subW [mkR ("suspension") ("trx")] e
  let e := subW [mkR ("cables") ("cable")] e
  let e := subW [mkR ("ez curl bar") ("ez bar")] e
  let e := subW [mkR ("easy bar") ("ez bar")] e
  let e := subW [mkRL ("smith") ("smith machine") (" machine")] e
  let e := subW [mkR ("toe press") ("leg press calf raise")] e
  let e := subW [mkR ("swiss ball leg curl") ("stability ball leg curl")] e
  let e := subW [mkR ("ball leg curl") ("stability ball leg curl")] e
  let e := subW [mkR ("gliding disk leg curl") ("slider leg curl")] e
  let e := subW [mkR ("gliding leg curl") ("slider leg curl")] e
  let e := subW [mkR ("towel leg curl") ("slider leg curl")] e
  let e := subW [mkR ("band assisted") ("band assisted")] e
  let e := if hasSub (Lc ("chinup")) e || hasSub (Lc ("pullup")) e then subW [mkR ("banded") ("band assisted")] e else e
  let e := strRepl (Lc ("chin up")) (Lc ("chinup")) e
  let e := strRepl (Lc ("chin ups")) (Lc ("chinups")) e
  let e := strRepl (Lc ("pull up")) (Lc ("pullup")) e
  let e := strRepl (Lc ("pull ups")) (Lc ("pullups")) e
  let e := strRepl (Lc ("push up")) (Lc ("pushup")) e
  let e := strRepl (Lc ("push ups")) (Lc ("pushups")) e
  let e := strRepl (Lc ("sit up")) (Lc ("situp")) e
  let e := strRepl (Lc ("sit ups")) (Lc ("situps")) e
  let e := strRepl (Lc ("step up")) (Lc ("stepup")) e
  let e := strRepl (Lc ("step ups")) (Lc ("stepups")) e
  let e := strRepl (Lc ("face pull")) (Lc ("facepull")) e
  let e := strRepl (Lc ("face pulls")) (Lc ("facepulls")) e
  let e := strRepl (Lc ("push down")) (Lc ("pushdown")) e
  let e := strRepl (Lc ("push downs")) (Lc ("pushdowns")) e
  let e := strRepl (Lc ("pull down")) (Lc ("pulldown")) e
  let e := strRepl (Lc ("pull downs")) (Lc ("pulldowns")) e
  let e := subW [mkR ("raises") ("raise")] e
  let e := subW [mkR ("extensions") ("extension")] e
  let e := subW [mkR ("curls") ("curl")] e
  let e := subW [mkR ("rows") ("row")] e
  let e := subW [mkR ("presses") ("press")] e
  let e := subW [mkR ("flies") ("fly")] e
  let e := subW [mkR ("shrugs") ("shrug")] e
  let e := subW [mkR ("squats") ("squat")] e
  let e := subW [mkR ("lunges") ("lunge")] e
  let e := subW [mkR ("planks") ("plank")] e
  let e := subW [mkR ("rotations") ("rotation")] e
  let e := subW [mkR ("mines") ("mine")] e
  let e := subW [mkR ("pullups") ("pullup")] e
  let e := subW [mkR ("chinups") ("chinup")] e
  let e := subW [mkR ("pushups") ("pushup")] e
  let e := subW [mkR ("dips") ("dip")] e
  let e := subW [mkR ("pushdowns") ("pushdown")] e
  let e := subW [mkR ("pulldowns") ("pulldown")] e
  let e := subW [mkR ("facepulls") ("facepull")] e
  let e := subW [mkR ("stepups") ("stepup")] e
  let e := subW [mkR ("situps") ("situp")] e
  let e := subW [mkR ("deadlifts") ("deadlift")] e
  let e := subW [mkR ("thrusts") ("thrust")] e
  let e := subW [mkR ("rollouts") ("rollout")] e
  let e := subW [mkR ("bridges") ("bridge")] e
  let e := subW [mkR ("angels") ("angel")] e
  let e := subW [mkR ("landmines") ("landmine")] e
  let e := subW [mkR ("hypers") ("hyper")] e
  let e := subW [mkR ("deadbugs") ("deadbug")] e
  let e := subW [mkR ("pause rep") ("paused")] e
  let e := subW [mkR ("underhand grip") ("underhand")] e
  let e := subW [mkR ("overhand grip") ("overhand")] e
  let e := subW [mkR ("body weight") ("bodyweight")] e
  let e := subW [mkR ("land mine") ("landmine")] e
  let e := subW [mkR ("glut") ("glute")] e
  let e := subW [mkR ("dumbbell seated") ("seated dumbbell"),
                 mkR ("dumbbell standing") ("standing dumbbell"),
                 mkR ("dumbbell incline") ("incline dumbbell"),
                 mkR ("dumbbell flat") ("flat dumbbell"),
                 mkR ("dumbbell decline") ("decline dumbbell")] e
  let e := if endsWithL (Lc (" bench")) e && !(hasSub (Lc ("press")) e) then e ++ Lc (" press") else e
  let e := if hasSub (Lc ("bench")) e && !(hasSub (Lc ("press")) e) && !(hasSub (Lc ("bench press")) e)
           then subW [mkR ("bench") ("bench press")] e else e
  let e := subW [mkR ("trx bicep tricep") ("trx tricep")] e
  let e := subW [mkR ("trx bicep curl tricep") ("trx tricep")] e
  let e := if hasW (Lc ("trx bicep")) e && !(hasSub (Lc ("curl")) e) then subW [mkR ("trx bicep") ("trx bicep curl")] e else e
  let e := if hasW (Lc ("trx tricep")) e && !(hasSub (Lc ("extension")) e) then subW [mkR ("trx tricep") ("trx tricep extension")] e else e
  let e := stripSecond e
  let e := stripEachPer e
  let e := stripXn e
  let e := if hasSub (Lc ("lateral")) e && !(hasSub (Lc ("raise")) e)
           then subW [mkR ("laterals") ("lateral raise"), mkR ("lateral") ("lateral raise")] e else e
  let e := subW [mkR ("lat raises") ("lateral raise"), mkR ("lat raise") ("lateral raise")] e
  let e := if hasSub (Lc ("extension")) e && !(hasSub (Lc ("tricep")) e) &&
              !(hasWAny ["leg", "back", "hip", "hyper", "reverse"] e)
           then subW [mkR ("extensions") ("tricep extension"), mkR ("extension") ("tricep extension")] e else e
  let e := subW [mkR ("triceps") ("tricep")] e
  let e := subW [mkR ("hyperextension") ("back extension")] e
  let e := subW [mkRL ("hyper") ("back extension") (" extension")] e
  let e := subW [mkR ("reverse hyper extension") ("reverse hyper")] e
  let e := subW [mkR ("reverse hyperextension") ("reverse hyper")] e
  let e := if e = Lc ("curl") ∨ e = Lc ("curls") then Lc ("bicep curl") else e
  let e := subW [mkR ("biceps curl") ("bicep curl")] e
  let e := subW [mkR ("cable curl") ("cable bicep curl")] e
  let e := subW [mkR ("flat bench press") ("bench press")] e
  let e := subW [mkR ("incline press") ("incline bench press")] e
  let e := subW [mkR ("decline press") ("decline bench press")] e
  let e := if hasSub (Lc ("dumbbell")) e && hasSub (Lc ("press")) e &&
              !(hasSub (Lc ("bench")) e) && !(hasSub (Lc ("military")) e)
           then strRepl (Lc ("dumbbell press")) (Lc ("dumbbell bench press")) e else e
  let e := subW [mkR ("shoulder press") ("military press")] e
  let e := subW [mkR ("overhead press") ("military press")] e
  let e := subW [mkR ("bent over barbell row") ("barbell row")] e
  let e := subW [mkR ("bent row") ("barbell row")] e
  let e := if e = Lc ("dumbbell row") then Lc ("single arm dumbbell row") else e
  let e := subW [mkR ("one arm dumbbell row") ("single arm dumbbell row")] e
  let e := subW [mkR ("bent dumbbell row") ("bent over dumbbell row")] e
  let e := if e = Lc ("pulldown") then Lc ("lat pulldown") else e
  let e := subW [mkR ("wide grip pulldown") ("wide grip lat pulldown")] e
  let e := subW [mkR ("wide pulldown") ("wide grip lat pulldown")] e
  let e := subW [mkR ("close grip pulldown") ("close grip lat pulldown")] e
  let e := subW [mkR ("close pulldown") ("close grip lat pulldown")] e
  let e := subW [mkR ("pulls") ("pullup")] e
  let e := subW [mkR ("chins") ("chinup")] e
  e

/-- The weight-conditioned squat disambiguation (source lines 276-281). -/
def squatStage (e : List Char) (weight : Option ℚ) : List Char :=
  match weight with
  | none => e
  | some w =>
    if hasSub (Lc ("squat")) e then
      (if e = Lc ("squat") then
        (if w = 0 then Lc ("bodyweight squat")
         else if w > 15 then Lc ("barbell back squat")
         else e)
       else e)
    else e

/-- The rest of section 11, sections 12 and 13 and the final cleanup of
normalize_exercise_name, in source order. -/
def normStage3 (e0 : List Char) : List Char :=
  let e := e0
  let e := subW [mkR ("dumbbell goblet squat") ("goblet squat")] e
  let e := subW [mkR ("kettlebell goblet squat") ("goblet squat")] e
  let e := subW [mkR ("bulgarian split squat") ("rear foot elevated split squat")] e
  let e := if e = Lc ("deadlift") then Lc ("conventional deadlift") else e
  let e := subW [mkRL ("sumo") ("sumo deadlift") (" deadlift")] e
  let e := subW [mkR ("hex bar deadlift") ("trap bar deadlift")] e
  let e := subW [mkR ("barbell hip thrust") ("hip thrust")] e
  let e := subW [mkR ("parallel bar dip") ("dip")] e
  let e := subW [mkR ("cable facepull") ("facepull")] e
  let e := subW [mkR ("rope facepull") ("facepull")] e
  let e := subW [mkR ("flyes") ("fly"), mkR ("flye") ("fly")] e
  let e := subW [mkR ("flys") ("fly")] e
  let e := subW [mkR ("pec deck") ("machine fly")] e
  let e := subW [mkR ("reverse fly") ("rear delt fly")] e
  let e := subW [mkR ("bent over fly") ("rear delt fly")] e
  let e := subW [mkR ("rear fly") ("rear delt fly")] e
  let e := subW [mkR ("trap shrug") ("shrug")] e
  let e := subW [mkR ("calf raises") ("calf raise")] e
  let e := if e = Lc ("calf raise") then Lc ("standing calf raise") else e
  let e := subW [mkR ("ab wheel rollout") ("ab rollout")] e
  let e := subW [mkR ("ab wheel rotation") ("ab rollout")] e
  let e := if e = Lc ("ab wheel") then Lc ("ab rollout") else e
  let e := if e = Lc ("rollout") then Lc ("ab rollout") else e
  let e := subW [mkR ("hang from bar") ("dead hang")] e
  let e := subW [mkR ("bar hang") ("dead hang")] e
  let e := if e = Lc ("pushdown") ∨ e = Lc ("pushdowns") then Lc ("tricep pushdown") else e
  let e := subW [mkR ("v bar pushdown") ("tricep pushdown")] e
  let e := subW [⟨[PC.lit 'v', PC.anyc] ++ (Lc ("bar pushdown")).map PC.lit, Lc ("tricep pushdown"), []⟩] e
  let e := subW [mkR ("v-bar pushdown") ("tricep pushdown")] e
  let e := subW [mkR ("ez bar pushdown") ("tricep pushdown")] e
  let e := subW [mkR ("pushdowns") ("pushdown")] e
  let e := subW [mkR ("barbell good morning") ("good morning")] e
  let e := if e = Lc ("pullover") then Lc ("dumbbell pullover") else e
  let e := subW [mkR ("straight arm pulldown") ("cable pullover")] e
  let e := subW [mkR ("chest press machine") ("machine chest press")] e
  let e := subW [mkR ("ext rotation") ("external rotation")] e
  let e := tempoSub ' ' e
  let e := tempoSub '-' e
  let e := if hasSub (Lc ("press")) e then
      (let e1 := subW [mkR ("30 degree incline") ("low incline"), mkR ("low incline") ("low incline")] e
       let e2 := subW [mkR ("60 degree incline") ("high incline"), mkR ("high incline") ("high incline"),
                       mkR ("steep incline") ("high incline")] e1
       subW [mkR ("45 degree incline") ("incline")] e2)
    else e
  let e := joinSp (dedupWords (pySplitWS e))
  let e := pyStrip (collapseWS e)
  e

/-- normalize_exercise_name from src/exercise_normalization.py. -/
def normalize_exercise_name (exercise : String) (weight : Option ℚ) : String :=
  if startsStar (pyStrip exercise.data) then ""
  else ⟨normStage3 (squatStage (normStage1 exercise.data) weight)⟩

/-- The maximum of two rationals, written out so that it evaluates by the
decidable order on ℚ (definitionally equal to max). -/
def qmax (a b : ℚ) : ℚ :=
  if a ≤ b then b else a

/-- One iteration of the best-match loop of get_canonical_exercise_name:
keep the candidate only on a strict score improvement. -/
def mStep (n : String) (st : Option String × ℚ) (c : String) : Option String × ℚ :=
  if ratioQ n c > st.2 then (some c, ratioQ n c) else st

/-- get_canonical_exercise_name from src/fuzzy_matching.py: the single-pass
loop keeping the first strict improver, starting from best_match = None and
best_score = 0.  When the threshold branch is taken the loop's best_match is
present (its score is positive at every threshold the program uses), so the
getD default is never produced there. -/
def get_canonical_exercise_name (user_input : String) (program_exercises : List String)
    (weight : Option ℚ) (threshold : ℚ) : String × ℚ × Bool :=
  let n := normalize_exercise_name user_input weight
  if n = "" then ("", 0, false)
  else if n ∈ program_exercises then (n, 100, false)
  else
    let st := program_exercises.foldl (mStep n) (none, 0)
    if st.2 ≥ threshold then (st.1.getD "", st.2, true)
    else if st.2 ≥ 70 then (n, st.2, false)
    else (n, st.2, false)

/-- get_canonical_with_tiebreaker from src/fuzzy_matching.py.  The dictionary
matches_by_score groups candidates by score in iteration order, so its entry
at the maximal key, first element, is the first candidate in list order whose
score equals the maximum of all scores; the empty dictionary corresponds to
an empty candidate list. -/
def get_canonical_with_tiebreaker (user_input : String) (program_exercises : List String)
    (weight : Option ℚ) (threshold : ℚ) : String × ℚ × Bool :=
  let n := normalize_exercise_name user_input weight
  if n = "" then ("", 0, false)
  else if n ∈ program_exercises then (n, 100, false)
  else
    match program_exercises with
    | [] => (n, 0, false)
    | c :: cs =>
      let best := (cs.map (fun p => ratioQ n p)).foldl qmax (ratioQ n c)
      let bm := ((c :: cs).filter (fun p => decide (ratioQ n p = best))).headD ""
      if best ≥ threshold then (bm, best, true)
      else if best ≥ 70 then (n, best, false)
      else (n, best, false)

/-- The bw|BW alternatives of the weight pattern, read on the reversed text:
exactly the two casings the regex lists, nothing case-insensitive. -/
def parseBwRev (l : List Char) : Option (List Char × List Char) :=
  match l with
  | c1 :: c2 :: r =>
    if c1 = 'w' && c2 = 'b' then some (['w', 'b'], r)
    else if c1 = 'W' && c2 = 'B' then some (['W', 'B'], r)
    else none
  | _ => none

/-- Parse the reversed weight token of the pattern
([0-9]+\.?[0-9]*|bw|BW), reading right to left from the slash: returns the
reversed token and the rest to its left.  The token end is fixed, so the
digit alternative must extend to maximal digits (and optionally one dot with
its maximal digits), otherwise the mandatory \s+ before the token fails. -/
def parseWeightRev (l : List Char) : Option (List Char × List Char) :=
  let d1 := l.takeWhile pyDigit
  match l.dropWhile pyDigit with
  | '.' :: r2 =>
    if (r2.takeWhile pyDigit).isEmpty then
      (if d1.isEmpty then parseBwRev l else some (d1, '.' :: r2))
    else some (d1 ++ '.' :: r2.takeWhile pyDigit, r2.dropWhile pyDigit)
  | r =>
    if d1.isEmpty then parseBwRev l else some (d1, r)

/-- re.match of the pattern
^(.+?)\s+([0-9]+\.?[0-9]*|bw|BW)\s*/\s*([0-9]+)$ against the (stripped)
message, returning (group 1, group 2, group 3).  The reps group is anchored
at the end, which forces the decomposition: maximal trailing digits, optional
whitespace, the slash, optional whitespace, the weight token, mandatory
whitespace, and a nonempty group 1.  Group 1 is matched by the dot, which
excludes newlines. -/
def patternMatch (s : List Char) : Option (List Char × List Char × List Char) :=
  let r := s.reverse
  let reps := r.takeWhile pyDigit
  if reps.isEmpty then none
  else
    match (r.dropWhile pyDigit).dropWhile pyIsSpace with
    | '/' :: r3 =>
      (match parseWeightRev (r3.dropWhile pyIsSpace) with
       | none => none
       | some (wtokRev, r5) =>
         if (r5.takeWhile pyIsSpace).isEmpty then none
         else
           (let g1rev := r5.dropWhile pyIsSpace
            if g1rev.isEmpty then none
            else if g1rev.all (fun c => c ≠ '\n') then
              some (g1rev.reverse, wtokRev.reverse, reps.reverse)
            else none))
    | _ => none

/-- The digit value of a digit list, most significant first. -/
def digitsToNat (l : List Char) : Nat :=
  l.foldl (fun n c => n * 10 + (c.toNat - 48)) 0

/-- Python float() restricted to the token shapes the pattern can produce
(digits with an optional fractional part), as an exact rational. -/
def pyFloatTok (t : List Char) : Option ℚ :=
  let d1 := t.takeWhile pyDigit
  if d1.isEmpty then none
  else
    match t.dropWhile pyDigit with
    | [] => some (digitsToNat d1)
    | '.' :: fr =>
      if fr.all pyDigit then some ((digitsToNat d1 : ℚ) + (digitsToNat fr : ℚ) / (10 : ℚ) ^ fr.length)
      else none
    | _ => none

/-- The weight conversion of parse_pr_message: the bodyweight token maps to
zero, otherwise float() (None models the ValueError branch). -/
def weightFrom (t : List Char) : Option ℚ :=
  if t.map pyToUpper = Lc ("BW") then some 0 else pyFloatTok t

/-- Python int() restricted to the digit tokens the pattern can produce. -/
def repsFrom (t : List Char) : Option Nat :=
  if !t.isEmpty && t.all pyDigit then some (digitsToNat t) else none

/-- The record returned by parse_pr_message. -/
structure ParsedPR where
  raw_exercise : String
  canonical_exercise : String
  weight : ℚ
  reps : Nat
  estimated_1rm : ℚ
  match_score : ℚ
  used_fuzzy : Bool
deriving DecidableEq

/-- parse_pr_message from src/fuzzy_matching.py. -/
def parse_pr_message (message : String) (program_exercises : List String) : Option ParsedPR :=
  if startsStar (pyStrip message.data) then none
  else
    match patternMatch (pyStrip message.data) with
    | none => none
    | some gwr =>
      let raw_exercise := pyStrip gwr.1
      let weight_str := pyStrip gwr.2.1
      let reps_str := pyStrip gwr.2.2
      match weightFrom weight_str with
      | none => none
      | some weight =>
        match repsFrom reps_str with
        | none => none
        | some reps =>
          if weight < 0 ∨ weight > 1000 then none
          else if reps < 3 ∨ reps > 50 then none
          else
            let t := get_canonical_with_tiebreaker ⟨raw_exercise⟩ program_exercises (some weight) 85
            if t.1 = "" then none
            else some ⟨⟨raw_exercise⟩, t.1, weight, reps,
                       (if weight = 0 then 0 else weight * (1 + (reps : ℚ) / 30)),
                       t.2.1, t.2.2⟩

/-- The best fuzzy score of a normalized input against a candidate list:
the maximum of all pairwise scores, zero for an empty list (every score is
nonnegative, so this agrees with the maximum over the dictionary keys built
by get_canonical_with_tiebreaker whenever the list is nonempty). -/
def bestScoreQ (n : String) (cands : List String) : ℚ :=
  (cands.map (fun p => ratioQ n p)).foldl qmax 0

/-- The first candidate in list order achieving the best score: the head of
best_matches in get_canonical_with_tiebreaker. -/
def firstBestQ (n : String) (cands : List String) : String :=
  (cands.filter (fun p => decide (ratioQ n p = bestScoreQ n cands))).headD ""

/-- Membership in the decimal alternative [0-9]+\.?[0-9]* of the weight
pattern: digits, optionally followed by a dot and further digits. -/
def isDecTok (t : List Char) : Bool :=
  match t.dropWhile pyDigit with
  | [] => !(t.takeWhile pyDigit).isEmpty
  | '.' :: fr => !(t.takeWhile pyDigit).isEmpty && fr.all pyDigit
  | _ => false

/-- The fuzzy score is always nonnegative. -/
theorem ratioQ_nonneg (a b : String) : 0 ≤ ratioQ a b := by
  unfold ratioQ ratioL
  split
  · norm_num
  · apply div_nonneg
    · positivity
    · positivity

/-- Claim C1 (code bug witness): normalization is not idempotent.  The late
tempo strip (source line 356) runs after the bare-name family rules, so the
first pass over "deadlift 1 2 3" leaves the bare name "deadlift", which a
second pass rewrites to "conventional deadlift". -/
theorem claim_C1_code_bug :
    normalize_exercise_name ("deadlift 1 2 3") none = "deadlift" ∧
    normalize_exercise_name (normalize_exercise_name ("deadlift 1 2 3") none) none =
      "conventional deadlift" ∧
    normalize_exercise_name (normalize_exercise_name ("deadlift 1 2 3") none) none ≠
      normalize_exercise_name ("deadlift 1 2 3") none := by
  refine ⟨by decide, by decide, by decide⟩

/-- Claim C8: any input whose stripped text begins with the coach-comment
marker short-circuits: the normalizer returns the empty string and the parser
returns none, for every weight and every candidate list. -/
theorem claim_C8 (s : String) (w : Option ℚ) (prog : List String)
    (h : startsStar (pyStrip s.data) = true) :
    normalize_exercise_name s w = "" ∧ parse_pr_message s prog = none := by
  constructor
  · simp only [normalize_exercise_name, if_pos h]
  · simp only [parse_pr_message, if_pos h]

/-- Witness for claim C8 at the concrete inputs of the spec. -/
theorem claim_C8_witness :
    normalize_exercise_name ("* form check") none = "" ∧
    parse_pr_message ("* note") ["chinup"] = none :=
  ⟨(claim_C8 ("* form check") none [] (by decide)).1,
   (claim_C8 ("* note") none ["chinup"] (by decide)).2⟩

/-- Claim C4 (counterexample): the weight pattern alternative is the literal
bw|BW without re.IGNORECASE, so the mixed casing "Bw" is rejected even though
the two exact casings are accepted; the claim that every casing is accepted
is false. -/
theorem claim_C4_counterexample :
    parse_pr_message ("chinup Bw/8") ["chinup"] = none ∧
    parse_pr_message ("chinup bw/8") ["chinup"] ≠ none ∧
    parse_pr_message ("chinup BW/8") ["chinup"] ≠ none := by
  refine ⟨by decide, by decide, by decide⟩

/-- Claim C3 (counterexample): with "zzzz" against ["abcde", "abcdf"] both
candidates achieve the maximal score (a tie), yet the matcher does not return
the earliest tied candidate "abcde": the best score is below the threshold,
so the normalized input itself is returned. -/
theorem claim_C3_counterexample :
    ratioQ (normalize_exercise_name ("zzzz") none) ("abcde") =
      bestScoreQ (normalize_exercise_name ("zzzz") none) ["abcde", "abcdf"] ∧
    ratioQ (normalize_exercise_name ("zzzz") none) ("abcdf") =
      bestScoreQ (normalize_exercise_name ("zzzz") none) ["abcde", "abcdf"] ∧
    get_canonical_with_tiebreaker ("zzzz") ["abcde", "abcdf"] none 85 = ("zzzz", 0, false) ∧
    ("zzzz" : String) ≠ "abcde" ∧ ("zzzz" : String) ≠ "abcdf" := by
  refine ⟨by with_unfolding_all decide, by with_unfolding_all decide,
          by with_unfolding_all decide, by decide, by decide⟩

/-- Claim C6: the weight-conditioned squat disambiguation.  For the input
"squat", weight 0 gives "bodyweight squat", any weight above 15 gives
"barbell back squat", and any weight in the middle band (0, 15] leaves
"squat" unchanged. -/
theorem claim_C6 :
    normalize_exercise_name ("squat") (some 0) = "bodyweight squat" ∧
    (∀ w : ℚ, 15 < w → normalize_exercise_name ("squat") (some w) = "barbell back squat") ∧
    (∀ w : ℚ, 0 < w → w ≤ 15 → normalize_exercise_name ("squat") (some w) = "squat") := by
  have h0 : ¬ (startsStar (pyStrip ("squat" : String).data) = true) := by decide
  have h1 : normStage1 ("squat" : String).data = Lc ("squat") := by decide
  refine ⟨by decide, ?_, ?_⟩
  · intro w hw
    simp only [normalize_exercise_name, if_neg h0, h1, squatStage, if_true]
    rw [if_neg (show ¬ w = 0 by rintro rfl; exact absurd hw (by norm_num)),
        if_pos hw]
    decide
  · intro w hw0 hw15
    simp only [normalize_exercise_name, if_neg h0, h1, squatStage, if_true]
    rw [if_neg (show ¬ w = 0 by rintro rfl; exact absurd hw0 (by norm_num)),
        if_neg (not_lt.mpr hw15)]
    decide

/-- Witness for claim C6 at the spec's concrete weights 135 and 10. -/
theorem claim_C6_witness :
    ((15 : ℚ) < 135 ∧ normalize_exercise_name ("squat") (some 135) = "barbell back squat") ∧
    ((0 : ℚ) < 10 ∧ (10 : ℚ) ≤ 15 ∧ normalize_exercise_name ("squat") (some 10) = "squat") :=
  ⟨⟨by norm_num, claim_C6.2.1 135 (by norm_num)⟩,
   ⟨by norm_num, by norm_num, claim_C6.2.2 10 (by norm_num) (by norm_num)⟩⟩

/-- qmax agrees with the lattice maximum on ℚ. -/
theorem qmax_eq_max (a b : ℚ) : qmax a b = max a b := by
  simp only [qmax, max_def]

/-- Folding qmax is folding max. -/
theorem foldl_qmax_eq_foldl_max (l : List ℚ) (q : ℚ) :
    l.foldl qmax q = l.foldl max q := by
  induction l generalizing q with
  | nil => rfl
  | cons x xs ih => simp only [List.foldl_cons, qmax_eq_max, ih]

/-- The seed is below a max fold. -/
theorem le_foldl_max (l : List ℚ) : ∀ q : ℚ, q ≤ l.foldl max q := by
  induction l with
  | nil => intro q; simp
  | cons x xs ih => intro q; exact le_trans (le_max_left q x) (ih (max q x))

/-- Every member is below a max fold. -/
theorem mem_le_foldl_max (l : List ℚ) (x : ℚ) (hx : x ∈ l) : ∀ q : ℚ, x ≤ l.foldl max q := by
  induction l with
  | nil => cases hx
  | cons y ys ih =>
    intro q
    rcases List.mem_cons.mp hx with h | h
    · subst h; exact le_trans (le_max_right q x) (le_foldl_max ys (max q x))
    · exact ih h (max q y)

/-- A max fold is either the seed or a member of the list. -/
theorem foldl_max_mem (l : List ℚ) : ∀ q : ℚ, l.foldl max q = q ∨ l.foldl max q ∈ l := by
  induction l with
  | nil => intro q; left; rfl
  | cons x xs ih =>
    intro q
    rw [List.foldl_cons]
    rcases ih (max q x) with h | h
    · rw [h]
      rcases max_choice q x with h2 | h2
      · left; exact h2
      · right; rw [h2]; exact List.mem_cons_self x xs
    · right; exact List.mem_cons_of_mem x h

/-- On a nonempty candidate list the zero-seeded best score equals the fold
seeded with the head score (scores are nonnegative), which is the form used
inside get_canonical_with_tiebreaker. -/
theorem bestScoreQ_cons (n c : String) (cs : List String) :
    bestScoreQ n (c :: cs) = (cs.map (fun p => ratioQ n p)).foldl qmax (ratioQ n c) := by
  simp only [bestScoreQ, List.map_cons, List.foldl_cons]
  congr 1
  rw [qmax_eq_max]
  exact max_eq_right (ratioQ_nonneg n c)

/-- On a nonempty candidate list the best score is attained by some candidate. -/
theorem bestScoreQ_attained (n c : String) (cs : List String) :
    ∃ p ∈ c :: cs, ratioQ n p = bestScoreQ n (c :: cs) := by
  have hb : bestScoreQ n (c :: cs) = ((c :: cs).map (fun p => ratioQ n p)).foldl max 0 := by
    simp only [bestScoreQ, foldl_qmax_eq_foldl_max]
  rcases foldl_max_mem ((c :: cs).map (fun p => ratioQ n p)) 0 with h | h
  · refine ⟨c, List.mem_cons_self c cs, ?_⟩
    have h1 : ratioQ n c ≤ bestScoreQ n (c :: cs) := by
      rw [hb]
      exact mem_le_foldl_max _ _ (by simp) 0
    have h2 : bestScoreQ n (c :: cs) = 0 := by rw [hb, h]
    have h3 := ratioQ_nonneg n c
    linarith
  · rcases List.mem_map.mp h with ⟨p, hp, hfp⟩
    exact ⟨p, hp, by rw [hb]; exact hfp⟩

/-- The head of a nonempty filtered list satisfies the predicate and is the
earliest such element: the list splits around it with every earlier element
failing the predicate. -/
theorem headD_filter_spec (p : String → Bool) (l : List String) (h : ¬ l.filter p = []) :
    p ((l.filter p).headD "") = true ∧
    ∃ pre suf, l = pre ++ ((l.filter p).headD "") :: suf ∧ ∀ y ∈ pre, p y = false := by
  induction l with
  | nil => simp at h
  | cons c cs ih =>
    by_cases hc : p c
    · rw [List.filter_cons_of_pos hc, List.headD_cons]
      exact ⟨hc, [], cs, rfl, by simp⟩
    · rw [List.filter_cons_of_neg hc] at h ⊢
      obtain ⟨h1, pre, suf, hdec, hpre⟩ := ih h
      refine ⟨h1, c :: pre, suf, ?_, ?_⟩
      · rw [List.cons_append, ← hdec]
      · intro y hy
        rcases List.mem_cons.mp hy with rfl | hy2
        · exact Bool.eq_false_iff.mpr hc
        · exact hpre y hy2

/-- The first best candidate is a member of a nonempty candidate list and
attains the best score. -/
theorem firstBestQ_mem (n c : String) (cs : List String) :
    firstBestQ n (c :: cs) ∈ c :: cs ∧
    ratioQ n (firstBestQ n (c :: cs)) = bestScoreQ n (c :: cs) := by
  obtain ⟨x, hx, hfx⟩ := bestScoreQ_attained n c cs
  have hflt : ¬ (c :: cs).filter
      (fun q => decide (ratioQ n q = bestScoreQ n (c :: cs))) = [] := by
    intro h0
    have hxin : x ∈ (c :: cs).filter
        (fun q => decide (ratioQ n q = bestScoreQ n (c :: cs))) :=
      List.mem_filter.mpr ⟨hx, decide_eq_true hfx⟩
    rw [h0] at hxin
    cases hxin
  have hfb : firstBestQ n (c :: cs) = ((c :: cs).filter
      (fun q => decide (ratioQ n q = bestScoreQ n (c :: cs)))).headD "" := rfl
  have hhm : ((c :: cs).filter
      (fun q => decide (ratioQ n q = bestScoreQ n (c :: cs)))).headD "" ∈
      (c :: cs).filter (fun q => decide (ratioQ n q = bestScoreQ n (c :: cs))) := by
    cases hfl : (c :: cs).filter (fun q => decide (ratioQ n q = bestScoreQ n (c :: cs))) with
    | nil => exact absurd hfl hflt
    | cons a as => exact List.mem_cons_self a as
  have hmf := List.mem_filter.mp hhm
  exact ⟨by rw [hfb]; exact hmf.1, by rw [hfb]; exact of_decide_eq_true hmf.2⟩

/-- When the input normalizes to a nonempty string not on the candidate list
and the best score reaches the threshold, get_canonical_with_tiebreaker
returns the first best-scoring candidate, the best score, and the fuzzy flag. -/
theorem tiebreaker_high (u : String) (cands : List String) (w : Option ℚ) (t : ℚ)
    (hne : normalize_exercise_name u w ≠ "")
    (hmem : normalize_exercise_name u w ∉ cands)
    (hcons : cands ≠ [])
    (hth : t ≤ bestScoreQ (normalize_exercise_name u w) cands) :
    get_canonical_with_tiebreaker u cands w t =
      (firstBestQ (normalize_exercise_name u w) cands,
       bestScoreQ (normalize_exercise_name u w) cands, true) := by
  obtain ⟨c, cs, rfl⟩ := List.exists_cons_of_ne_nil hcons
  simp only [get_canonical_with_tiebreaker, if_neg hne, if_neg hmem]
  rw [← bestScoreQ_cons]
  rw [if_pos hth]
  rfl

/-- When the best score is below the threshold, get_canonical_with_tiebreaker
returns the normalized input, the best score, and no fuzzy flag (this covers
both low bands and the empty candidate list). -/
theorem tiebreaker_low (u : String) (cands : List String) (w : Option ℚ) (t : ℚ)
    (hne : normalize_exercise_name u w ≠ "")
    (hmem : normalize_exercise_name u w ∉ cands)
    (hlt : bestScoreQ (normalize_exercise_name u w) cands < t) :
    get_canonical_with_tiebreaker u cands w t =
      (normalize_exercise_name u w,
       bestScoreQ (normalize_exercise_name u w) cands, false) := by
  cases cands with
  | nil =>
    simp only [get_canonical_with_tiebreaker, if_neg hne, if_neg hmem]
    rfl
  | cons c cs =>
    simp only [get_canonical_with_tiebreaker, if_neg hne, if_neg hmem]
    rw [← bestScoreQ_cons]
    rw [if_neg (not_le.mpr hlt), ite_self]

/-- Claim C2: decision bands of the matcher.  For any threshold at least 70
(the default is 85), a non-empty normalized input not equal to any candidate
is resolved by bands on the best score: at or above the threshold the first
best candidate is returned with used_fuzzy true; in [70, threshold) and below
70 the normalized input is returned with used_fuzzy false; in all bands the
returned score is the best score. -/
theorem claim_C2 (u : String) (cands : List String) (w : Option ℚ) (t : ℚ)
    (ht : 70 ≤ t)
    (hne : normalize_exercise_name u w ≠ "")
    (hmem : normalize_exercise_name u w ∉ cands) :
    (t ≤ bestScoreQ (normalize_exercise_name u w) cands →
       get_canonical_with_tiebreaker u cands w t =
         (firstBestQ (normalize_exercise_name u w) cands,
          bestScoreQ (normalize_exercise_name u w) cands, true)) ∧
    (70 ≤ bestScoreQ (normalize_exercise_name u w) cands ∧
       bestScoreQ (normalize_exercise_name u w) cands < t →
       get_canonical_with_tiebreaker u cands w t =
         (normalize_exercise_name u w,
          bestScoreQ (normalize_exercise_name u w) cands, false)) ∧
    (bestScoreQ (normalize_exercise_name u w) cands < 70 →
       get_canonical_with_tiebreaker u cands w t =
         (normalize_exercise_name u w,
          bestScoreQ (normalize_exercise_name u w) cands, false)) := by
  refine ⟨?_, ?_, ?_⟩
  · intro h
    rcases eq_or_ne cands [] with rfl | hc
    · exfalso
      have h0 : bestScoreQ (normalize_exercise_name u w) [] = 0 := rfl
      rw [h0] at h
      linarith
    · exact tiebreaker_high u cands w t hne hmem hc h
  · rintro ⟨h1, h2⟩
    exact tiebreaker_low u cands w t hne hmem h2
  · intro h
    exact tiebreaker_low u cands w t hne hmem (lt_of_lt_of_le h ht)

/-- Witness for claim C2 at a concrete fuzzy-band input. -/
theorem claim_C2_witness :
    ((70 : ℚ) ≤ 85) ∧
    normalize_exercise_name ("abcd") none ≠ "" ∧
    normalize_exercise_name ("abcd") none ∉ ["abcde"] ∧
    (85 : ℚ) ≤ bestScoreQ (normalize_exercise_name ("abcd") none) ["abcde"] ∧
    get_canonical_with_tiebreaker ("abcd") ["abcde"] none 85 = ("abcde", 800 / 9, true) := by
  refine ⟨by norm_num, by decide, by decide, by with_unfolding_all decide, ?_⟩
  exact ((claim_C2 ("abcd") ["abcde"] none 85 (by norm_num) (by decide) (by decide)).1
      (by with_unfolding_all decide)).trans (by with_unfolding_all decide)

/-- Claim C3 (amended): when two or more candidates achieve the maximal score
and the best score reaches the threshold, the matcher returns the tied
candidate appearing earliest in the candidate list: the list splits around
the returned candidate with every earlier candidate scoring strictly below
the best score. -/
theorem claim_C3_amended (u : String) (cands : List String) (w : Option ℚ) (t : ℚ)
    (hne : normalize_exercise_name u w ≠ "")
    (hmem : normalize_exercise_name u w ∉ cands)
    (htie : 2 ≤ cands.countP
      (fun c => decide (ratioQ (normalize_exercise_name u w) c =
        bestScoreQ (normalize_exercise_name u w) cands)))
    (hth : t ≤ bestScoreQ (normalize_exercise_name u w) cands) :
    get_canonical_with_tiebreaker u cands w t =
      (firstBestQ (normalize_exercise_name u w) cands,
       bestScoreQ (normalize_exercise_name u w) cands, true) ∧
    ratioQ (normalize_exercise_name u w) (firstBestQ (normalize_exercise_name u w) cands) =
      bestScoreQ (normalize_exercise_name u w) cands ∧
    ∃ pre suf, cands = pre ++ firstBestQ (normalize_exercise_name u w) cands :: suf ∧
      ∀ y ∈ pre, ratioQ (normalize_exercise_name u w) y ≠
        bestScoreQ (normalize_exercise_name u w) cands := by
  have hflt : ¬ cands.filter
      (fun c => decide (ratioQ (normalize_exercise_name u w) c =
        bestScoreQ (normalize_exercise_name u w) cands)) = [] := by
    intro h0
    rw [List.countP_eq_length_filter, h0] at htie
    simp at htie
  have hcands : cands ≠ [] := by
    rintro rfl
    simp at hflt
  obtain ⟨hph, pre, suf, hdec, hpre⟩ := headD_filter_spec _ cands hflt
  have hfb : firstBestQ (normalize_exercise_name u w) cands = (cands.filter
      (fun c => decide (ratioQ (normalize_exercise_name u w) c =
        bestScoreQ (normalize_exercise_name u w) cands))).headD "" := rfl
  refine ⟨tiebreaker_high u cands w t hne hmem hcands hth, ?_, pre, suf, ?_, ?_⟩
  · rw [hfb]
    exact of_decide_eq_true hph
  · rw [hfb]
    exact hdec
  · intro y hy
    exact of_decide_eq_false (hpre y hy)

/-- Witness for claim C3 at a concrete two-way tie above the threshold. -/
theorem claim_C3_witness :
    get_canonical_with_tiebreaker ("abcd") ["abcde", "abcdf"] none 85 = ("abcde", 800 / 9, true) ∧
    ratioQ (normalize_exercise_name ("abcd") none) ("abcde") =
      ratioQ (normalize_exercise_name ("abcd") none) ("abcdf") := by
  constructor
  · exact ((claim_C3_amended ("abcd") ["abcde", "abcdf"] none 85 (by decide) (by decide)
      (by with_unfolding_all decide) (by with_unfolding_all decide)).1).trans
      (by with_unfolding_all decide)
  · with_unfolding_all decide

/-- Claim C10: the name returned by get_canonical_with_tiebreaker is always
the empty string, the normalized input, or a member of the candidate list;
and whenever used_fuzzy is true it is a member of the candidate list. -/
theorem claim_C10 (u : String) (cands : List String) (w : Option ℚ) (t : ℚ) :
    ((get_canonical_with_tiebreaker u cands w t).1 = "" ∨
     (get_canonical_with_tiebreaker u cands w t).1 = normalize_exercise_name u w ∨
     (get_canonical_with_tiebreaker u cands w t).1 ∈ cands) ∧
    ((get_canonical_with_tiebreaker u cands w t).2.2 = true →
      (get_canonical_with_tiebreaker u cands w t).1 ∈ cands) := by
  by_cases h1 : normalize_exercise_name u w = ""
  · simp only [get_canonical_with_tiebreaker, if_pos h1]
    exact ⟨Or.inl trivial, by simp⟩
  · by_cases h2 : normalize_exercise_name u w ∈ cands
    · simp only [get_canonical_with_tiebreaker, if_neg h1, if_pos h2]
      exact ⟨Or.inr (Or.inl trivial), by simp⟩
    · cases cands with
      | nil =>
        simp only [get_canonical_with_tiebreaker, if_neg h1, if_neg h2]
        exact ⟨Or.inr (Or.inl trivial), by simp⟩
      | cons c cs =>
        by_cases h3 : t ≤ bestScoreQ (normalize_exercise_name u w) (c :: cs)
        · rw [tiebreaker_high u (c :: cs) w t h1 h2 (by simp) h3]
          have hmemfb := (firstBestQ_mem (normalize_exercise_name u w) c cs).1
          exact ⟨Or.inr (Or.inr hmemfb), fun _ => hmemfb⟩
        · rw [tiebreaker_low u (c :: cs) w t h1 h2 (not_le.mp h3)]
          exact ⟨Or.inr (Or.inl rfl), by simp⟩

/-- Witness for claim C10 at a concrete input where used_fuzzy is true. -/
theorem claim_C10_witness :
    (get_canonical_with_tiebreaker ("abcd") ["abcde"] none 85).2.2 = true ∧
    (get_canonical_with_tiebreaker ("abcd") ["abcde"] none 85).1 ∈ ["abcde"] :=
  ⟨by with_unfolding_all decide,
   (claim_C10 ("abcd") ["abcde"] none 85).2 (by with_unfolding_all decide)⟩

/-- The score component of the first-improver loop is the running maximum of
the scores. -/
theorem mStep_snd (n : String) (l : List String) : ∀ (bm : Option String) (q : ℚ),
    (l.foldl (mStep n) (bm, q)).2 = (l.map (fun c => ratioQ n c)).foldl max q := by
  induction l with
  | nil => intro bm q; rfl
  | cons c cs ih =>
    intro bm q
    rw [List.foldl_cons, List.map_cons, List.foldl_cons]
    by_cases h : ratioQ n c > q
    · rw [show mStep n (bm, q) c = (some c, ratioQ n c) from by simp [mStep, h]]
      rw [ih]
      congr 1
      exact (max_eq_right (le_of_lt h)).symm
    · rw [show mStep n (bm, q) c = (bm, q) from by simp [mStep, h]]
      rw [ih]
      congr 1
      exact (max_eq_left (not_lt.mp h)).symm

/-- The first-improver loop either leaves its state unchanged, or ends with a
strictly larger score and its best_match is the first element of the list
achieving the final score. -/
theorem mStep_fst (n : String) (l : List String) : ∀ (bm : Option String) (q : ℚ),
    (l.foldl (mStep n) (bm, q) = (bm, q)) ∨
    (q < (l.foldl (mStep n) (bm, q)).2 ∧
     ∃ x, (l.foldl (mStep n) (bm, q)).1 = some x ∧
       (l.filter (fun c => decide (ratioQ n c = (l.foldl (mStep n) (bm, q)).2))).head? =
         some x) := by
  induction l with
  | nil => intro bm q; left; rfl
  | cons c cs ih =>
    intro bm q
    rw [List.foldl_cons]
    by_cases h : ratioQ n c > q
    · rw [show mStep n (bm, q) c = (some c, ratioQ n c) from by simp [mStep, h]]
      rcases ih (some c) (ratioQ n c) with h2 | ⟨hlt, x, hx1, hx2⟩
      · right
        rw [h2]
        refine ⟨h, c, rfl, ?_⟩
        rw [List.filter_cons_of_pos (by simp)]
        rfl
      · right
        refine ⟨lt_trans h hlt, x, hx1, ?_⟩
        rw [List.filter_cons_of_neg
          (by simp only [decide_eq_true_eq]; exact ne_of_lt hlt)]
        exact hx2
    · rw [show mStep n (bm, q) c = (bm, q) from by simp [mStep, h]]
      rcases ih bm q with h2 | ⟨hlt, x, hx1, hx2⟩
      · left; exact h2
      · right
        refine ⟨hlt, x, hx1, ?_⟩
        rw [List.filter_cons_of_neg
          (by simp only [decide_eq_true_eq]
              exact ne_of_lt (lt_of_le_of_lt (not_lt.mp h) hlt))]
        exact hx2

/-- Claim C9: at the default threshold 85 the two matcher implementations
return the same triple on every input, candidate list, and weight. -/
theorem claim_C9 (u : String) (cands : List String) (w : Option ℚ) :
    get_canonical_exercise_name u cands w 85 = get_canonical_with_tiebreaker u cands w 85 := by
  by_cases h1 : normalize_exercise_name u w = ""
  · simp only [get_canonical_exercise_name, get_canonical_with_tiebreaker, if_pos h1]
  · by_cases h2 : normalize_exercise_name u w ∈ cands
    · simp only [get_canonical_exercise_name, get_canonical_with_tiebreaker,
        if_neg h1, if_pos h2]
    · cases cands with
      | nil =>
        simp only [get_canonical_exercise_name, get_canonical_with_tiebreaker,
          if_neg h1, if_neg h2, List.foldl_nil]
        norm_num
      | cons c cs =>
        have hbest : ((c :: cs).foldl (mStep (normalize_exercise_name u w)) (none, 0)).2 =
            bestScoreQ (normalize_exercise_name u w) (c :: cs) := by
          rw [mStep_snd]
          simp only [bestScoreQ, foldl_qmax_eq_foldl_max]
        by_cases h85 : (85 : ℚ) ≤ bestScoreQ (normalize_exercise_name u w) (c :: cs)
        · rcases mStep_fst (normalize_exercise_name u w) (c :: cs) none 0 with
            hl | ⟨hlt, x, hx1, hx2⟩
          · exfalso
            rw [hl] at hbest
            have h0 : (0 : ℚ) = bestScoreQ (normalize_exercise_name u w) (c :: cs) := hbest
            linarith
          · have hth : ((c :: cs).foldl (mStep (normalize_exercise_name u w)) (none, 0)).2 ≥ 85 := by
              rw [hbest]; exact h85
            have hx2' : ((c :: cs).filter (fun c' => decide (ratioQ (normalize_exercise_name u w) c' =
                bestScoreQ (normalize_exercise_name u w) (c :: cs)))).head? = some x := by
              rw [← hbest]; exact hx2
            have hfbx : firstBestQ (normalize_exercise_name u w) (c :: cs) = x := by
              simp only [firstBestQ, List.headD_eq_head?_getD, hx2']
              rfl
            rw [tiebreaker_high u (c :: cs) w 85 h1 h2 (by simp) h85]
            simp only [get_canonical_exercise_name, if_neg h1, if_neg h2]
            rw [if_pos hth, hx1, hbest, hfbx]
            rfl
        · have hlow : bestScoreQ (normalize_exercise_name u w) (c :: cs) < 85 := not_le.mp h85
          rw [tiebreaker_low u (c :: cs) w 85 h1 h2 hlow]
          simp only [get_canonical_exercise_name, if_neg h1, if_neg h2]
          have hth : ¬ (((c :: cs).foldl (mStep (normalize_exercise_name u w)) (none, 0)).2 ≥ 85) := by
            rw [hbest]; exact h85
          rw [if_neg hth, ite_self, hbest]

/-- A nonempty all-digit list is in the decimal token language. -/
theorem isDecTok_digits (d : List Char) (hne : d ≠ [])
    (hall : ∀ c ∈ d, pyDigit c = true) : isDecTok d = true := by
  have hdw : d.dropWhile pyDigit = [] := List.dropWhile_eq_nil_iff.mpr hall
  have ht : d.takeWhile pyDigit = d := by
    conv_rhs => rw [← List.takeWhile_append_dropWhile pyDigit d]
    rw [hdw, List.append_nil]
  simp only [isDecTok, hdw, ht]
  cases d with
  | nil => exact absurd rfl hne
  | cons a as => rfl

/-- Splitting takeWhile and dropWhile at the first failing element. -/
theorem takeWhile_append_stop (p : Char → Bool) (xs : List Char) (y : Char) (ys : List Char)
    (hxs : ∀ c ∈ xs, p c = true) (hy : p y = false) :
    (xs ++ y :: ys).takeWhile p = xs ∧ (xs ++ y :: ys).dropWhile p = y :: ys := by
  induction xs with
  | nil =>
    simp only [List.nil_append]
    rw [List.takeWhile_cons_of_neg (by simp [hy]), List.dropWhile_cons_of_neg (by simp [hy])]
    exact ⟨rfl, rfl⟩
  | cons a as ih =>
    have ha : p a = true := hxs a (by simp)
    obtain ⟨ih1, ih2⟩ := ih (fun c hc => hxs c (List.mem_cons_of_mem a hc))
    simp only [List.cons_append]
    rw [List.takeWhile_cons_of_pos ha, List.dropWhile_cons_of_pos ha]
    exact ⟨by rw [ih1], by rw [ih2]⟩

/-- Digits, a dot, then digits (front part nonempty) is in the decimal token
language. -/
theorem isDecTok_frac (d1 d2 : List Char) (hd2 : d2 ≠ [])
    (h1 : ∀ c ∈ d1, pyDigit c = true) (h2 : ∀ c ∈ d2, pyDigit c = true) :
    isDecTok (d2 ++ '.' :: d1) = true := by
  obtain ⟨ht, hd⟩ := takeWhile_append_stop pyDigit d2 '.' d1 h2 (by decide)
  simp only [isDecTok, hd, ht]
  cases d2 with
  | nil => exact absurd rfl hd2
  | cons a as =>
    simp only [List.isEmpty_cons, Bool.not_false, Bool.true_and]
    exact List.all_eq_true.mpr (fun c hc => h1 c hc)

/-- The bw parser only produces the two exact casings. -/
theorem parseBwRev_tok (l t r : List Char) (h : parseBwRev l = some (t, r)) :
    t.reverse = Lc ("bw") ∨ t.reverse = Lc ("BW") := by
  simp only [parseBwRev] at h
  split at h
  · split at h
    · simp only [Option.some.injEq, Prod.mk.injEq] at h
      obtain ⟨h1, _⟩ := h
      subst h1
      left
      rfl
    · split at h
      · simp only [Option.some.injEq, Prod.mk.injEq] at h
        obtain ⟨h1, _⟩ := h
        subst h1
        right
        rfl
      · exact Option.noConfusion h
  · exact Option.noConfusion h

/-- Every token produced by the weight-token parser is a decimal token or one
of the two exact bodyweight casings. -/
theorem parseWeightRev_tok (l t r : List Char) (h : parseWeightRev l = some (t, r)) :
    isDecTok t.reverse = true ∨ t.reverse = Lc ("bw") ∨ t.reverse = Lc ("BW") := by
  have hDigits : ∀ c ∈ (l.takeWhile pyDigit).reverse, pyDigit c = true :=
    fun c hc => List.mem_takeWhile_imp (List.mem_reverse.mp hc)
  simp only [parseWeightRev] at h
  split at h
  · -- the dropWhile produced a dot-headed rest
    split at h
    · split at h
      · exact Or.inr (parseBwRev_tok l t r h)
      · rename_i hne
        simp only [Option.some.injEq, Prod.mk.injEq] at h
        obtain ⟨h1, _⟩ := h
        subst h1
        left
        apply isDecTok_digits _ _ hDigits
        rw [Ne, List.reverse_eq_nil_iff]
        intro h0
        exact hne (by rw [h0]; rfl)
    · rename_i r2 hfr
      simp only [Option.some.injEq, Prod.mk.injEq] at h
      obtain ⟨h1, _⟩ := h
      subst h1
      left
      rw [List.reverse_append, List.reverse_cons, List.append_assoc, List.singleton_append]
      refine isDecTok_frac _ _ ?_ hDigits ?_
      · rw [Ne, List.reverse_eq_nil_iff]
        intro h0
        exact hfr (by rw [h0]; rfl)
      · exact fun c hc => List.mem_takeWhile_imp (List.mem_reverse.mp hc)
  · split at h
    · exact Or.inr (parseBwRev_tok l t r h)
    · rename_i hne
      simp only [Option.some.injEq, Prod.mk.injEq] at h
      obtain ⟨h1, _⟩ := h
      subst h1
      left
      apply isDecTok_digits _ _ hDigits
      rw [Ne, List.reverse_eq_nil_iff]
      intro h0
      exact hne (by rw [h0]; rfl)

/-- Claim C4 (amended): the weight field accepted by the message pattern is
either a decimal number or exactly the token "bw" or "BW" (only these two
casings; mixed casings are rejected by the pattern), and both bodyweight
tokens map to numeric weight 0. -/
theorem claim_C4_amended :
    (∀ (s g wtok rtok : List Char), patternMatch s = some (g, wtok, rtok) →
        isDecTok wtok = true ∨ wtok = Lc ("bw") ∨ wtok = Lc ("BW")) ∧
    weightFrom (Lc ("bw")) = some 0 ∧ weightFrom (Lc ("BW")) = some 0 := by
  refine ⟨?_, by decide, by decide⟩
  intro s g wtok rtok h
  simp only [patternMatch] at h
  split at h
  · exact Option.noConfusion h
  · split at h
    · split at h
      · exact Option.noConfusion h
      · split at h
        · exact Option.noConfusion h
        · split at h
          · exact Option.noConfusion h
          · split at h
            · simp only [Option.some.injEq, Prod.mk.injEq] at h
              obtain ⟨_, h2, _⟩ := h
              subst h2
              exact parseWeightRev_tok _ _ _ (by assumption)
            · exact Option.noConfusion h
    · exact Option.noConfusion h

/-- Witness for claim C4: the pattern accepts "bw" on a concrete message, the
characterization applies to it, and both exact casings parse to weight 0. -/
theorem claim_C4_witness :
    patternMatch (Lc ("chinup bw/8")) = some (Lc ("chinup"), Lc ("bw"), Lc ("8")) ∧
    (isDecTok (Lc ("bw")) = true ∨ Lc ("bw") = Lc ("bw") ∨ Lc ("bw") = Lc ("BW")) ∧
    (parse_pr_message ("chinup bw/8") ["chinup"]).map ParsedPR.weight = some 0 ∧
    (parse_pr_message ("chinup BW/8") ["chinup"]).map ParsedPR.weight = some 0 := by
  refine ⟨by decide, ?_, by with_unfolding_all decide, by with_unfolding_all decide⟩
  exact claim_C4_amended.1 (Lc ("chinup bw/8")) (Lc ("chinup")) (Lc ("bw")) (Lc ("8"))
    (by decide)

/-- Claim C5: whenever the message matches the weight/reps pattern but the
parsed weight lies outside [0, 1000] or the parsed rep count lies outside
[3, 50], parse_pr_message returns none. -/
theorem claim_C5 (msg : String) (prog : List String) (g wtok rtok : List Char)
    (wq : ℚ) (rn : Nat)
    (hm : patternMatch (pyStrip msg.data) = some (g, wtok, rtok))
    (hw : weightFrom (pyStrip wtok) = some wq)
    (hr : repsFrom (pyStrip rtok) = some rn)
    (hbad : wq < 0 ∨ wq > 1000 ∨ rn < 3 ∨ rn > 50) :
    parse_pr_message msg prog = none := by
  by_cases hstar : startsStar (pyStrip msg.data) = true
  · simp only [parse_pr_message, if_pos hstar]
  · simp only [parse_pr_message, if_neg hstar, hm, hw, hr]
    rcases hbad with h | h | h | h
    · rw [if_pos (Or.inl h)]
    · rw [if_pos (Or.inr h)]
    · by_cases hwr : wq < 0 ∨ wq > 1000
      · rw [if_pos hwr]
      · rw [if_neg hwr, if_pos (Or.inl h)]
    · by_cases hwr : wq < 0 ∨ wq > 1000
      · rw [if_pos hwr]
      · rw [if_neg hwr, if_pos (Or.inr h)]

/-- Witness for claim C5 at the spec's concrete rejected message. -/
theorem claim_C5_witness :
    patternMatch (pyStrip ("deadlift 315/2" : String).data) =
      some (Lc ("deadlift"), Lc ("315"), Lc ("2")) ∧
    weightFrom (pyStrip (Lc ("315"))) = some 315 ∧
    repsFrom (pyStrip (Lc ("2"))) = some 2 ∧
    parse_pr_message ("deadlift 315/2") ["conventional deadlift"] = none := by
  refine ⟨by decide, by with_unfolding_all decide, by decide, ?_⟩
  exact claim_C5 ("deadlift 315/2") ["conventional deadlift"]
    (Lc ("deadlift")) (Lc ("315")) (Lc ("2")) 315 2
    (by decide) (by with_unfolding_all decide) (by decide)
    (Or.inr (Or.inr (Or.inl (by norm_num))))

/-- Claim C7: in every successfully parsed record the estimated 1RM is 0 when
the weight is 0, and weight * (1 + reps / 30) when the weight is positive;
in particular "chinup BW/8" parses with weight 0 and estimated 1RM 0. -/
theorem claim_C7 :
    (∀ (msg : String) (prog : List String) (rec : ParsedPR),
        parse_pr_message msg prog = some rec →
        (rec.weight = 0 → rec.estimated_1rm = 0) ∧
        (0 < rec.weight →
          rec.estimated_1rm = rec.weight * (1 + (rec.reps : ℚ) / 30))) ∧
    (parse_pr_message ("chinup BW/8") ["chinup"]).map
        (fun rec => (rec.weight, rec.estimated_1rm)) = some (0, 0) := by
  constructor
  · intro msg prog rec h
    simp only [parse_pr_message] at h
    split at h
    · exact Option.noConfusion h
    · split at h
      · exact Option.noConfusion h
      · split at h
        · exact Option.noConfusion h
        · split at h
          · exact Option.noConfusion h
          · split at h
            · exact Option.noConfusion h
            · split at h
              · exact Option.noConfusion h
              · split at h
                · exact Option.noConfusion h
                · rw [Option.some.injEq] at h
                  subst h
                  constructor
                  · intro h0
                    dsimp only at h0 ⊢
                    rw [if_pos h0]
                  · intro h0
                    dsimp only at h0 ⊢
                    rw [if_neg (ne_of_gt h0)]
  · with_unfolding_all decide

/-- Witness for claim C7 at the spec's end-to-end example with positive
weight: 85 * (1 + 12 / 30) = 119. -/
theorem claim_C7_witness :
    parse_pr_message ("db bench 85/12") ["dumbbell bench press"] =
      some (ParsedPR.mk ("db bench") ("dumbbell bench press") 85 12 119 100 false) ∧
    (ParsedPR.mk ("db bench") ("dumbbell bench press") 85 12 119 100 false).estimated_1rm =
      (ParsedPR.mk ("db bench") ("dumbbell bench press") 85 12 119 100 false).weight *
        (1 + ((ParsedPR.mk ("db bench") ("dumbbell bench press")
          85 12 119 100 false).reps : ℚ) / 30) := by
  have hp : parse_pr_message ("db bench 85/12") ["dumbbell bench press"] =
      some (ParsedPR.mk ("db bench") ("dumbbell bench press") 85 12 119 100 false) := by
    with_unfolding_all decide
  exact ⟨hp, (claim_C7.1 ("db bench 85/12") ["dumbbell bench press"] _ hp).2 (by norm_num)⟩
